import Mathlib

/-!
Shallow embedding of the dependency-sentry core (checker.js / security.js)
and proofs of the specification claims about it.

The external collaborators (the npm registry, the `npm audit` process and
`JSON.parse`) are modelled as oracles supplied to the embedded functions,
following the spec's stance that they are consumed only through their
input/output contracts.
-/

set_option autoImplicit false

namespace DepSentry

/-! ## Semantic versions (the slice of the `semver` library the checker uses) -/

/-- A three-component semantic version `major.minor.patch`. -/
structure SemVer where
  major : Nat
  minor : Nat
  patch : Nat
deriving DecidableEq, Repr

/-- Split a character list at every dot, like `String.splitOn "."`. -/
def splitDots : List Char → List (List Char)
  | [] => [[]]
  | c :: rest =>
    let r := splitDots rest
    if c == '.' then [] :: r
    else
      match r with
      | h :: t => (c :: h) :: t
      | [] => [[c]]

/-- Accumulating decimal reading of a digit list. -/
def digitsToNatGo : List Char → Nat → Option Nat
  | [], acc => some acc
  | c :: rest, acc =>
    if 48 ≤ c.toNat && c.toNat ≤ 57 then
      digitsToNatGo rest (acc * 10 + (c.toNat - 48))
    else none

/-- Read a nonempty all-digit character list as a number
(the behaviour of `String.toNat?`). -/
def digitsToNat (cs : List Char) : Option Nat :=
  match cs with
  | [] => none
  | _ => digitsToNatGo cs 0

/-- Whether one character list begins with another. -/
def listBegins : List Char → List Char → Bool
  | _, [] => true
  | [], _ :: _ => false
  | c :: cs, d :: ds => c == d && listBegins cs ds

/-- The test `s.startsWith pre` of the source. -/
def beginsWith (s pre : String) : Bool :=
  listBegins s.toList pre.toList

/-- Parse a bare `major.minor.patch` version string. -/
def parseSemVer (s : String) : Option SemVer :=
  match splitDots s.toList with
  | [a, b, c] =>
    match digitsToNat a, digitsToNat b, digitsToNat c with
    | some ma, some mi, some pa => some ⟨ma, mi, pa⟩
    | _, _, _ => none
  | _ => none

/-- Strict `>` on parsed versions: lexicographic on (major, minor, patch). -/
def semverGtB (a b : SemVer) : Bool :=
  decide (a.major > b.major) ||
    (a.major == b.major &&
      (decide (a.minor > b.minor) ||
        (a.minor == b.minor && decide (a.patch > b.patch))))

/-- The comparison `semver.gt(x, y)` on version strings; `none` models the TypeError the
library throws when either argument is not a valid version. -/
def semverGtOpt (x y : String) : Option Bool :=
  match parseSemVer x, parseSemVer y with
  | some a, some b => some (semverGtB a b)
  | _, _ => none

/-- The cleanup `currentVersion.replace(/^[\^~>=<]+/, '')` — drop leading range-operator
characters to obtain the bare comparison version (checker.js line 40). -/
def cleanVersionOf (s : String) : String :=
  String.mk (s.toList.dropWhile fun c =>
    c == '^' || c == '~' || c == '>' || c == '=' || c == '<')

/-- The helper `semver.maxSatisfying(versions, range)`: the greatest listed version that
satisfies the range, `none` when none does.  The range-satisfaction predicate
`sat` is the external semver range matcher, taken as an oracle. -/
def maxSatisfying (sat : String → String → Bool) (versions : List String)
    (range : String) : Option String :=
  (versions.filter fun v => sat v range).foldl
    (fun acc v =>
      match acc with
      | none => some v
      | some m => if semverGtOpt v m = some true then some v else acc)
    none

/-- The Version Resolver of spec §4.1, read off checker.js lines 40–50:
clean the declared range, compare the latest version against the bare
version, and compute the wanted version as
`semver.maxSatisfying([latestVersion], currentVersion) || latestVersion`.
`none` models the per-package exception path (invalid version). -/
def resolve (sat : String → String → Bool) (declaredRange latestVersion : String) :
    Option (Bool × String) :=
  match semverGtOpt latestVersion (cleanVersionOf declaredRange) with
  | none => none
  | some b => some (b, (maxSatisfying sat [latestVersion] declaredRange).getD latestVersion)

/-- Modelled from the spec's words (§4.1): the greatest version that both
equals `latestVersion` and satisfies `declaredRange`, falling back to
`latestVersion` itself when `latestVersion` does not satisfy the range. -/
def specWantedVersion (sat : String → String → Bool)
    (declaredRange latestVersion : String) : String :=
  match [latestVersion].filter (fun v => sat v declaredRange) with
  | [] => latestVersion
  | v :: _ => v

/-! ## The Outdated-Set Builder (checker.js `checkDependencies`) -/

/-- The three dependency buckets of a parsed package.json, each a
JavaScript-object-like association list from package name to declared range.
A missing bucket is the empty list (`packageJson.dependencies || {}`). -/
structure Manifest where
  dependencies : List (String × String)
  devDependencies : List (String × String)
  peerDependencies : List (String × String)
deriving Repr

/-- One element of the array `checkDependencies` resolves to
(checker.js lines 60–66). -/
structure OutdatedRecord where
  name : String
  current : String
  latest : String
  wanted : String
  type : String
deriving DecidableEq, Repr

/-- First-match lookup in a JS-object-like association list. -/
def lookupStr {α : Type} (l : List (String × α)) (k : String) : Option α :=
  match l with
  | [] => none
  | p :: rest => if p.1 = k then some p.2 else lookupStr rest k

/-- JavaScript object-key insertion: overwrite the value in place when the
key is present, append otherwise. -/
def objInsert {α : Type} (m : List (String × α)) (k : String) (v : α) :
    List (String × α) :=
  if m.any (fun p => p.1 = k) then
    m.map (fun p => if p.1 = k then (k, v) else p)
  else
    m ++ [(k, v)]

/-- JavaScript object spread `{...a, ...b}`: keys of `a` first (values
overridden by `b` where `b` has the key), then `b`'s new keys in order. -/
def spreadMerge {α : Type} (a b : List (String × α)) : List (String × α) :=
  b.foldl (fun m p => objInsert m p.1 p.2) a

/-- The merge `{...packageJson.dependencies, ...packageJson.devDependencies,
...packageJson.peerDependencies}` (checker.js lines 23–27). -/
def allDepsOf (m : Manifest) : List (String × String) :=
  spreadMerge (spreadMerge m.dependencies m.devDependencies) m.peerDependencies

/-- Truthiness of `bucket[name]` for a string-valued JS object: present and
not the empty string. -/
def truthyLookupStr (l : List (String × String)) (k : String) : Bool :=
  match lookupStr l k with
  | some v => !(v == "")
  | none => false

/-- The dependency-type classification of checker.js lines 52–58:
`'prod'` by default, `'dev'` when the name is (truthily) in devDependencies,
else `'peer'` when it is in peerDependencies. -/
def depTypeOf (m : Manifest) (name : String) : String :=
  if truthyLookupStr m.devDependencies name then "dev"
  else if truthyLookupStr m.peerDependencies name then "peer"
  else "prod"

/-- The loop body of `checkDependencies` over the merged entries
(checker.js lines 32–71).  `reg` is the external latest-version source
(`getLatestVersion`): `none` models both a lookup failure and a not-found
result, in which case the package is skipped with a warning.  The per-package
`try`/`catch` makes an invalid-version exception (`semverGtOpt = none`) skip
the package as well. -/
def checkDepsGo (sat : String → String → Bool) (reg : String → Option String)
    (m : Manifest) : List (String × String) → List OutdatedRecord
  | [] => []
  | (name, cur) :: rest =>
    if beginsWith cur "file:" || beginsWith cur "git+" then
      checkDepsGo sat reg m rest
    else
      match reg name with
      | none => checkDepsGo sat reg m rest
      | some lv =>
        if lv == "" then checkDepsGo sat reg m rest
        else
          match semverGtOpt lv (cleanVersionOf cur) with
          | none => checkDepsGo sat reg m rest
          | some false => checkDepsGo sat reg m rest
          | some true =>
            { name := name
              current := cur
              latest := lv
              wanted := "^" ++ (maxSatisfying sat [lv] cur).getD lv
              type := depTypeOf m name } :: checkDepsGo sat reg m rest

/-- The builder `checkDependencies` (checker.js lines 14–78) for a successfully read and
parsed manifest: iterate the spread-merged buckets, skip local/VCS ranges,
query the latest-version source per package, and keep the packages whose
latest version is strictly newer than the bare declared version. -/
def checkDependencies (sat : String → String → Bool)
    (reg : String → Option String) (m : Manifest) : List OutdatedRecord :=
  checkDepsGo sat reg m (allDepsOf m)

/-! ## JavaScript values (for security.js, whose data flows through JSON) -/

/-- A JSON/JavaScript value as produced by `JSON.parse`. -/
inductive JVal where
  | null
  | bool (b : Bool)
  | num (n : Int)
  | str (s : String)
  | arr (elems : List JVal)
  | obj (fields : List (String × JVal))
deriving Repr

/-- JavaScript truthiness of a defined value. -/
def truthy : JVal → Bool
  | .null => false
  | .bool b => b
  | .num n => !(n == 0)
  | .str s => !(s == "")
  | .arr _ => true
  | .obj _ => true

/-- Truthiness of a possibly-`undefined` value (`none` is `undefined`). -/
def truthyOpt : Option JVal → Bool
  | none => false
  | some v => truthy v

/-- Property access `v.name`: a TypeError (`Except.error`) on `null`,
`undefined` (`Option.none`) on primitives and on objects lacking the field. -/
def jget : JVal → String → Except Unit (Option JVal)
  | .null, _ => .error ()
  | .obj fields, k => .ok (lookupStr fields k)
  | _, _ => .ok none

/-- The enumeration `Object.entries(v)` / object-spread enumeration for a truthy value:
an object's fields in order, an array's elements indexed, a string's
characters indexed, nothing for the other primitives. -/
def jentries : JVal → List (String × JVal)
  | .obj fields => fields
  | .arr elems => elems.enum.map fun p => (toString p.1, p.2)
  | .str s => s.toList.enum.map fun p => (toString p.1, JVal.str (String.mk [p.2]))
  | _ => []

/-- The enumeration `Object.values(v)` for a truthy value. -/
def jvalues (v : JVal) : List JVal :=
  (jentries v).map Prod.snd

/-- JavaScript `x || d` where `x` may be `undefined`. -/
def jsOr (x : Option JVal) (d : JVal) : JVal :=
  match x with
  | some v => if truthy v then v else d
  | none => d

/-- JavaScript string coercion, as used in template literals. -/
def jToStr : JVal → String
  | .null => "null"
  | .bool true => "true"
  | .bool false => "false"
  | .num n => toString n
  | .str s => s
  | .arr elems => String.intercalate "," (elems.map fun e => jToStrShallow e)
  | .obj _ => "[object Object]"
where
  /-- One-level coercion for array elements (arrays never nest in the data
  the aggregator coerces, so one level is faithful where it is used). -/
  jToStrShallow : JVal → String
  | .null => ""
  | .bool true => "true"
  | .bool false => "false"
  | .num n => toString n
  | .str s => s
  | .arr _ => ""
  | .obj _ => "[object Object]"

/-- Template interpolation of a possibly-`undefined` value. -/
def jToStrOpt : Option JVal → String
  | none => "undefined"
  | some v => jToStr v

/-! ## The Vulnerability Aggregator (security.js) -/

/-- A normalized vulnerability record (security.js pushes lines 64–72 and
148–157).  `version` is absent (`none`) on audit-path records; `severity`
is the raw JS value, `none` when the source left it `undefined`. -/
structure VulnRecord where
  name : String
  version : Option String
  severity : Option JVal
  title : JVal
  url : JVal
  vulnerable : JVal
  patched : JVal
  advisory : JVal
deriving Repr

/-- The error thrown by `execSync` on a failing `npm audit --json`:
a message plus the stdout attached to the failure. -/
structure AuditErr where
  message : String
  stdout : String
deriving Repr

/-- The external world as security.js consumes it: the audit process,
the package.json read, `JSON.parse`, and the registry fetch
(`none` collapses network errors, non-ok statuses and body-parse failures,
all of which reach the same `catch`). -/
structure SecEnv where
  audit : Except AuditErr String
  manifest : Option String
  parse : String → Option JVal
  fetchReg : String → String → Option JVal

/-- The run-scoped in-memory vulnerability cache, keyed by `name@version`. -/
def Cache : Type := List (String × List VulnRecord)

/-- The empty cache a run starts with. -/
def cacheEmpty : Cache := []

/-- The cache key `` `${name}@${version}` ``. -/
def cacheKey (name version : String) : String :=
  name ++ "@" ++ version

/-- The membership test `vulnerabilityCache.has(key)`. -/
def cacheHas (st : Cache) (k : String) : Bool :=
  (lookupStr st k).isSome

/-- One iteration of the audit loop (security.js lines 59–74): take the
first listed cause as representative and build the record, or skip.
`Except.error` models a TypeError escaping the loop (e.g. a `null` entry). -/
def auditEntry (name : String) (data : JVal) :
    Except Unit (Option VulnRecord) :=
  match jget data "via" with
  | .error e => .error e
  | .ok via =>
    if truthyOpt via then
      match via with
      | some viaVal =>
        let vuln : Option JVal :=
          match viaVal with
          | .arr elems => elems.head?
          | v => some v
        if truthyOpt vuln then
          match vuln with
          | some vulnVal =>
            match jget data "severity", jget vulnVal "title",
                jget vulnVal "url", jget data "range",
                jget vulnVal "fixedIn", jget vulnVal "advisory" with
            | .ok sev, .ok title, .ok url, .ok range, .ok fixedIn, .ok adv =>
              .ok (some
                { name := name
                  version := none
                  severity := sev
                  title := jsOr title (.str "Unknown vulnerability")
                  url := jsOr url (.str "")
                  vulnerable := jsOr range (.str "*")
                  patched :=
                    if truthyOpt fixedIn then .str (">=" ++ jToStrOpt fixedIn)
                    else .str "No fix available"
                  advisory := jsOr adv (.str "") })
            | _, _, _, _, _, _ => .error ()
          | none => .ok none
        else .ok none
      | none => .ok none
    else .ok none

/-- The audit loop over `Object.entries(audit.vulnerabilities)`. -/
def auditLoop : List (String × JVal) → Except Unit (List VulnRecord)
  | [] => .ok []
  | (name, data) :: rest => do
    let entry ← auditEntry name data
    let tail ← auditLoop rest
    pure (match entry with
      | some r => r :: tail
      | none => tail)

/-- The body of `checkWithNpmAudit` after `JSON.parse` succeeded
(security.js lines 53–77): empty when `audit.vulnerabilities` is falsy,
otherwise the audit loop; errors are the TypeErrors the `catch` rethrows. -/
def auditFromJson (audit : JVal) : Except String (List VulnRecord) :=
  match jget audit "vulnerabilities" with
  | .error _ => .error "Failed to run npm audit: TypeError"
  | .ok vulns =>
    if truthyOpt vulns then
      match vulns with
      | some vulnsVal =>
        match auditLoop (jentries vulnsVal) with
        | .error _ => .error "Failed to run npm audit: TypeError"
        | .ok recs => .ok recs
      | none => .ok []
    else .ok []

/-- The primary path `checkWithNpmAudit` (security.js lines 48–81): run the audit command,
parse its stdout, extract records; any exception is rethrown as
`Failed to run npm audit`.  A process failure is an error here — the
output attached to the failure is never consulted. -/
def checkWithNpmAudit (env : SecEnv) : Except String (List VulnRecord) :=
  match env.audit with
  | .error e => .error ("Failed to run npm audit: " ++ e.message)
  | .ok out =>
    match env.parse out with
    | none => .error "Failed to run npm audit: JSON parse error"
    | some audit => auditFromJson audit

/-- The probe `hasNpmAudit` (security.js lines 35–42): probe `npm audit --json` and
report only whether it exited successfully. -/
def hasNpmAudit (env : SecEnv) : Bool :=
  match env.audit with
  | .ok _ => true
  | .error _ => false

/-- One record of the registry fallback loop (security.js lines 148–157). -/
def regVulnRecord (name version : String) (vuln : JVal) :
    Except Unit VulnRecord :=
  match jget vuln "severity", jget vuln "title", jget vuln "url",
      jget vuln "id", jget vuln "vulnerable_versions",
      jget vuln "patched_versions", jget vuln "overview" with
  | .ok sev, .ok title, .ok url, .ok vid, .ok vulnerable, .ok patched,
      .ok overview =>
    .ok
      { name := name
        version := some version
        severity := some (jsOr sev (.str "moderate"))
        title := jsOr title (.str "Unknown vulnerability")
        url := jsOr url
          (.str ("https://www.npmjs.com/advisories/" ++ jToStrOpt vid))
        vulnerable := jsOr vulnerable (.str "*")
        patched := jsOr patched (.str "No fix available")
        advisory := jsOr overview (.str "") }
  | _, _, _, _, _, _, _ => .error ()

/-- The registry fallback loop over `Object.values(data.vulnerabilities)`. -/
def regLoop (name version : String) : List JVal → Except Unit (List VulnRecord)
  | [] => .ok []
  | vuln :: rest => do
    let r ← regVulnRecord name version vuln
    let tail ← regLoop name version rest
    pure (r :: tail)

/-- Extraction of records from a successfully fetched registry payload
(security.js lines 143–159): empty when `data.vulnerabilities` is falsy,
otherwise one record per value; errors are TypeErrors reaching the `catch`. -/
def regExtract (name version : String) (data : JVal) :
    Except Unit (List VulnRecord) :=
  match jget data "vulnerabilities" with
  | .error _ => .error ()
  | .ok vulns =>
    if truthyOpt vulns then
      match vulns with
      | some vulnsVal => regLoop name version (jvalues vulnsVal)
      | none => .ok []
    else .ok []

/-- The fallback query `getPackageVulnerabilities` (security.js lines 126–169) with the cache
threaded explicitly and the number of registry round-trips counted.
A cache hit answers without touching the source; a successful fetch caches
its (possibly empty) record list; any failure is caught, returns `[]`
and caches nothing. -/
def getPackageVulnerabilities (env : SecEnv) (st : Cache)
    (name version : String) : List VulnRecord × Cache × Nat :=
  let key := cacheKey name version
  match lookupStr st key with
  | some cached => (cached, st, 0)
  | none =>
    match env.fetchReg name version with
    | none => ([], st, 1)
    | some data =>
      match regExtract name version data with
      | .error _ => ([], st, 1)
      | .ok recs => (recs, objInsert st key recs, 1)

/-- The per-dependency loop of `checkWithNpmRegistry`
(security.js lines 100–112): skip non-string and local/VCS ranges, collect
each package's records, thread the cache.  `getPackageVulnerabilities`
never throws, so the surrounding per-package `catch` never fires. -/
def registryLoop (env : SecEnv) :
    List (String × JVal) → Cache → List VulnRecord × Cache
  | [], st => ([], st)
  | (name, v) :: rest, st =>
    match v with
    | .str s =>
      if beginsWith s "file:" || beginsWith s "git+" then
        registryLoop env rest st
      else
        let r := getPackageVulnerabilities env st name s
        let tail := registryLoop env rest r.2.1
        (r.1 ++ tail.1, tail.2)
    | _ => registryLoop env rest st

/-- A dependency bucket of the parsed manifest: `bucket || {}` spread into
the iteration object. -/
def bucketEntries (b : Option JVal) : List (String × JVal) :=
  if truthyOpt b then
    match b with
    | some v => jentries v
    | none => []
  else []

/-- The fallback path `checkWithNpmRegistry` (security.js lines 87–118): read and parse
package.json, merge the three buckets JS-object style, and run the
per-dependency loop; a missing or unparseable manifest (or a `null` parse
result) is rethrown as `Failed to check vulnerabilities`. -/
def checkWithNpmRegistry (env : SecEnv) (st : Cache) :
    Except String (List VulnRecord × Cache) :=
  match env.manifest with
  | none => .error "Failed to check vulnerabilities: ENOENT"
  | some mStr =>
    match env.parse mStr with
    | none => .error "Failed to check vulnerabilities: JSON parse error"
    | some pj =>
      match jget pj "dependencies", jget pj "devDependencies",
          jget pj "peerDependencies" with
      | .ok d, .ok dv, .ok p =>
        .ok (registryLoop env
          (spreadMerge (spreadMerge (bucketEntries d) (bucketEntries dv))
            (bucketEntries p)) st)
      | _, _, _ => .error "Failed to check vulnerabilities: TypeError"

/-- The aggregator `checkVulnerabilities` (security.js lines 16–29): prefer the audit path
when the probe succeeds, otherwise the registry fallback; the outer `catch`
turns any thrown error into the empty list. -/
def checkVulnerabilities (env : SecEnv) (st : Cache) :
    List VulnRecord × Cache :=
  if hasNpmAudit env then
    match checkWithNpmAudit env with
    | .ok recs => (recs, st)
    | .error _ => ([], st)
  else
    match checkWithNpmRegistry env st with
    | .ok p => p
    | .error _ => ([], st)

/-! ## Helper definitions and lemmas for the proofs -/

/-- First-defined choice of two optional values (used to phrase the
bucket-precedence lookups of the claims). -/
def optOr {α : Type} (x y : Option α) : Option α :=
  match x with
  | some v => some v
  | none => y

theorem maxSatisfying_singleton_getD (sat : String → String → Bool)
    (v range : String) : (maxSatisfying sat [v] range).getD v = v := by
  unfold maxSatisfying
  cases h : sat v range <;> simp [h]

theorem specWantedVersion_eq (sat : String → String → Bool)
    (range v : String) : specWantedVersion sat range v = v := by
  unfold specWantedVersion
  cases h : sat v range <;> simp [h]

/-- The per-entry shape of the `checkDependencies` loop: the record an entry
resolves to, or `none` when the entry is skipped. -/
def entryRecord (sat : String → String → Bool) (reg : String → Option String)
    (m : Manifest) (p : String × String) : Option OutdatedRecord :=
  if beginsWith p.2 "file:" || beginsWith p.2 "git+" then none
  else
    match reg p.1 with
    | none => none
    | some lv =>
      if lv == "" then none
      else
        match semverGtOpt lv (cleanVersionOf p.2) with
        | some true =>
          some
            { name := p.1
              current := p.2
              latest := lv
              wanted := "^" ++ (maxSatisfying sat [lv] p.2).getD lv
              type := depTypeOf m p.1 }
        | _ => none

theorem checkDepsGo_eq_filterMap (sat : String → String → Bool)
    (reg : String → Option String) (m : Manifest) :
    ∀ l : List (String × String),
      checkDepsGo sat reg m l = l.filterMap (entryRecord sat reg m) := by
  intro l
  induction l with
  | nil => rfl
  | cons p rest ih =>
    obtain ⟨name, cur⟩ := p
    simp only [checkDepsGo, List.filterMap_cons, entryRecord]
    by_cases hfg : (beginsWith cur "file:" || beginsWith cur "git+") = true
    · simp [hfg, ih]
    · rw [if_neg hfg, if_neg hfg]
      cases hreg : reg name with
      | none => simpa using ih
      | some lv =>
        dsimp only
        by_cases hlv : (lv == "") = true
        · simp [hlv, ih]
        · rw [if_neg hlv, if_neg hlv]
          cases hgt : semverGtOpt lv (cleanVersionOf cur) with
          | none => simpa using ih
          | some b => cases b <;> simp [ih]

theorem entryRecord_some (sat : String → String → Bool)
    (reg : String → Option String) (m : Manifest) (p : String × String)
    (r : OutdatedRecord) (h : entryRecord sat reg m p = some r) :
    r.name = p.1 ∧ r.current = p.2 ∧ reg p.1 = some r.latest ∧
      semverGtOpt r.latest (cleanVersionOf p.2) = some true ∧
      r.wanted = "^" ++ r.latest ∧ r.type = depTypeOf m p.1 := by
  unfold entryRecord at h
  by_cases hfg : (beginsWith p.2 "file:" || beginsWith p.2 "git+") = true
  · simp [hfg] at h
  · rw [if_neg hfg] at h
    cases hreg : reg p.1 with
    | none => simp [hreg] at h
    | some lv =>
      simp only [hreg] at h
      by_cases hlv : (lv == "") = true
      · simp [hlv] at h
      · rw [if_neg hlv] at h
        cases hgt : semverGtOpt lv (cleanVersionOf p.2) with
        | none => simp [hgt] at h
        | some b =>
          cases b with
          | false => simp [hgt] at h
          | true =>
            simp only [hgt] at h
            cases h
            refine ⟨rfl, rfl, rfl, hgt, ?_, rfl⟩
            simp [maxSatisfying_singleton_getD]

theorem mem_checkDependencies_iff (sat : String → String → Bool)
    (reg : String → Option String) (m : Manifest) (r : OutdatedRecord) :
    r ∈ checkDependencies sat reg m ↔
      ∃ p ∈ allDepsOf m, entryRecord sat reg m p = some r := by
  rw [checkDependencies, checkDepsGo_eq_filterMap]
  exact List.mem_filterMap

theorem lookupStr_any_eq_false {α : Type} (m : List (String × α))
    (k : String) (hm : m.any (fun p => p.1 = k) = false) :
    lookupStr m k = none := by
  induction m with
  | nil => rfl
  | cons p rest ih =>
    simp only [List.any_cons, Bool.or_eq_false_iff, decide_eq_false_iff_not] at hm
    simp only [lookupStr, if_neg hm.1]
    exact ih (by simp [hm.2])

theorem lookupStr_append {α : Type} (a b : List (String × α)) (k : String) :
    lookupStr (a ++ b) k = optOr (lookupStr a k) (lookupStr b k) := by
  induction a with
  | nil => simp [lookupStr, optOr]
  | cons p rest ih =>
    by_cases hp : p.1 = k
    · simp [lookupStr, hp, optOr]
    · simp [lookupStr, hp, ih]

theorem lookupStr_map_objInsert_ne {α : Type} (m : List (String × α))
    (k : String) (v : α) (q : String) (hq : q ≠ k) :
    lookupStr (m.map fun p => if p.1 = k then (k, v) else p) q =
      lookupStr m q := by
  induction m with
  | nil => rfl
  | cons p rest ih =>
    by_cases hp : p.1 = k
    · simp only [List.map_cons, if_pos hp, lookupStr]
      rw [if_neg (fun h : k = q => hq h.symm), ih,
        if_neg (fun h : p.1 = q => hq (hp ▸ h).symm)]
    · simp only [List.map_cons, if_neg hp, lookupStr]
      by_cases hpq : p.1 = q
      · rw [if_pos hpq, if_pos hpq]
      · rw [if_neg hpq, if_neg hpq, ih]

theorem lookupStr_map_objInsert_eq {α : Type} (m : List (String × α))
    (k : String) (v : α) (hm : m.any (fun p => p.1 = k) = true) :
    lookupStr (m.map fun p => if p.1 = k then (k, v) else p) k = some v := by
  induction m with
  | nil => simp at hm
  | cons p rest ih =>
    by_cases hp : p.1 = k
    · simp [List.map_cons, if_pos hp, lookupStr]
    · simp only [List.any_cons, Bool.or_eq_true, decide_eq_true_eq] at hm
      rcases hm with hm | hm
      · exact absurd hm hp
      · simp only [List.map_cons, if_neg hp, lookupStr, if_neg hp]
        exact ih (by simpa using hm)

theorem lookupStr_objInsert {α : Type} (m : List (String × α)) (k : String)
    (v : α) (q : String) :
    lookupStr (objInsert m k v) q =
      if q = k then some v else lookupStr m q := by
  unfold objInsert
  by_cases hm : m.any (fun p => p.1 = k) = true
  · rw [if_pos hm]
    by_cases hq : q = k
    · rw [if_pos hq, hq]
      exact lookupStr_map_objInsert_eq m k v hm
    · rw [if_neg hq, lookupStr_map_objInsert_ne m k v q hq]
  · rw [if_neg hm, lookupStr_append]
    by_cases hq : q = k
    · rw [if_pos hq, hq, lookupStr_any_eq_false m k (Bool.eq_false_iff.mpr hm)]
      simp [optOr, lookupStr]
    · rw [if_neg hq]
      cases hl : lookupStr m q with
      | some w => simp [optOr]
      | none =>
        simp only [optOr, lookupStr]
        rw [if_neg (fun h : k = q => hq h.symm)]

theorem lookupStr_none_of_not_memKeys {α : Type} (m : List (String × α))
    (k : String) (h : k ∉ m.map Prod.fst) : lookupStr m k = none := by
  induction m with
  | nil => rfl
  | cons p rest ih =>
    simp only [List.map_cons, List.mem_cons] at h
    push_neg at h
    simp only [lookupStr, if_neg (fun hh : p.1 = k => h.1 hh.symm)]
    exact ih h.2

theorem lookupStr_spreadMerge {α : Type} (b : List (String × α)) :
    (b.map Prod.fst).Nodup →
    ∀ (a : List (String × α)) (q : String),
      lookupStr (spreadMerge a b) q =
        optOr (lookupStr b q) (lookupStr a q) := by
  induction b with
  | nil =>
    intro _ a q
    simp [spreadMerge, lookupStr, optOr]
  | cons p rest ih =>
    intro hb a q
    simp only [List.map_cons, List.nodup_cons] at hb
    have hstep : spreadMerge a (p :: rest) =
        spreadMerge (objInsert a p.1 p.2) rest := rfl
    rw [hstep, ih hb.2 (objInsert a p.1 p.2) q, lookupStr_objInsert]
    by_cases hq : q = p.1
    · rw [if_pos hq, hq]
      rw [lookupStr_none_of_not_memKeys rest p.1 hb.1]
      simp [optOr, lookupStr]
    · simp only [if_neg hq, lookupStr]
      rw [if_neg (fun h : p.1 = q => hq h.symm)]

theorem keys_objInsert_any_true {α : Type} (m : List (String × α)) (k : String)
    (v : α) (hm : m.any (fun p => p.1 = k) = true) :
    (objInsert m k v).map Prod.fst = m.map Prod.fst := by
  unfold objInsert
  rw [if_pos hm, List.map_map]
  apply List.map_congr_left
  intro p _
  by_cases hp : p.1 = k
  · simp [hp]
  · simp [hp]

theorem nodupKeys_objInsert {α : Type} (m : List (String × α)) (k : String)
    (v : α) (h : (m.map Prod.fst).Nodup) :
    ((objInsert m k v).map Prod.fst).Nodup := by
  by_cases hm : m.any (fun p => p.1 = k) = true
  · rw [keys_objInsert_any_true m k v hm]; exact h
  · unfold objInsert
    rw [if_neg hm, List.map_append]
    simp only [List.map_cons, List.map_nil]
    rw [List.nodup_append]
    refine ⟨h, List.nodup_singleton k, ?_⟩
    intro x hx
    simp only [List.mem_singleton]
    intro hxk
    subst hxk
    simp only [List.mem_map] at hx
    obtain ⟨p, hp, hpk⟩ := hx
    exact hm (List.any_eq_true.mpr ⟨p, hp, by simp [hpk]⟩)

theorem nodupKeys_spreadMerge {α : Type} (b : List (String × α)) :
    ∀ a : List (String × α), (a.map Prod.fst).Nodup →
      ((spreadMerge a b).map Prod.fst).Nodup := by
  induction b with
  | nil => intro a ha; exact ha
  | cons p rest ih =>
    intro a ha
    have hstep : spreadMerge a (p :: rest) =
        spreadMerge (objInsert a p.1 p.2) rest := rfl
    rw [hstep]
    exact ih _ (nodupKeys_objInsert a p.1 p.2 ha)

theorem lookupStr_of_mem_nodup {α : Type} (m : List (String × α))
    (k : String) (v : α) (h : (m.map Prod.fst).Nodup) (hm : (k, v) ∈ m) :
    lookupStr m k = some v := by
  induction m with
  | nil => simp at hm
  | cons p rest ih =>
    simp only [List.map_cons, List.nodup_cons] at h
    rcases List.mem_cons.mp hm with hmem | hmem
    · rw [← hmem]
      simp [lookupStr]
    · have hne : p.1 ≠ k := by
        intro hk
        exact h.1 (hk ▸ List.mem_map.mpr ⟨(k, v), hmem, rfl⟩)
      simp only [lookupStr, if_neg hne]
      exact ih h.2 hmem

/-! ## Concrete fixtures used by witnesses and counterexamples -/

/-- A range matcher that accepts everything (the wanted-version computation
is independent of the matcher, so any concrete one serves a witness). -/
def satAll : String → String → Bool := fun _ _ => true

/-- A latest-version source that answers `2.0.0` for every package. -/
def regTwo : String → Option String := fun _ => some "2.0.0"

/-- A manifest declaring `a` both as a production and a development
dependency, with identical ranges. -/
def mDupProdDev : Manifest :=
  ⟨[("a", "^1.0.0")], [("a", "^1.0.0")], []⟩

/-- The record `checkDependencies` produces for `mDupProdDev` under
`regTwo`. -/
def recDev : OutdatedRecord :=
  ⟨"a", "^1.0.0", "2.0.0", "^2.0.0", "dev"⟩

/-- A manifest declaring `a` as production (range `^1.0.0`) and peer
(range `^1.5.0`) dependency. -/
def mPeer : Manifest :=
  ⟨[("a", "^1.0.0")], [], [("a", "^1.5.0")]⟩

/-- The record `checkDependencies` produces for `mPeer` under `regTwo`. -/
def recPeer : OutdatedRecord :=
  ⟨"a", "^1.5.0", "2.0.0", "^2.0.0", "peer"⟩

/-- A manifest with two production dependencies `a` and `b`. -/
def m5 : Manifest :=
  ⟨[("a", "1.0.0"), ("b", "1.0.0")], [], []⟩

/-- A latest-version source that fails for every package except `b`. -/
def regW : String → Option String :=
  fun s => if s = "b" then some "2.0.0" else none

/-- A latest-version source that agrees with `regW` on `b` but succeeds
on every other package. -/
def regW2 : String → Option String :=
  fun s => if s = "b" then some "2.0.0" else some "9.9.9"

/-- A plain outdated manifest: `a` declared `^1.2.0`. -/
def m3 : Manifest := ⟨[("a", "^1.2.0")], [], []⟩

/-- The record `checkDependencies` produces for `m3` under `regTwo`. -/
def rec3 : OutdatedRecord :=
  ⟨"a", "^1.2.0", "2.0.0", "^2.0.0", "prod"⟩

/-! ## Claims about the Version Resolver and the Outdated-Set Builder -/

/-- C1: for every declared range and latest version, the resolver's wanted
version is the greatest version that both equals the latest version and
satisfies the declared range, falling back to the latest version itself when
the latest does not satisfy the range; in particular
`resolve("^1.2.0", "1.3.0")` yields `isOutdated = true` and the bare wanted
version `"1.3.0"`, with no added prefix characters. -/
theorem c1_resolver_wanted (sat : String → String → Bool) :
    (∀ r lv b w, resolve sat r lv = some (b, w) →
      w = specWantedVersion sat r lv) ∧
    resolve sat "^1.2.0" "1.3.0" = some (true, "1.3.0") := by
  constructor
  · intro r lv b w h
    unfold resolve at h
    cases hgt : semverGtOpt lv (cleanVersionOf r) with
    | none => rw [hgt] at h; exact absurd h (by simp)
    | some b2 =>
      rw [hgt] at h
      simp only [Option.some.injEq, Prod.mk.injEq] at h
      rw [← h.2, maxSatisfying_singleton_getD, specWantedVersion_eq]
  · have h13 : semverGtOpt "1.3.0" (cleanVersionOf "^1.2.0") = some true := by
      decide
    unfold resolve
    rw [h13, maxSatisfying_singleton_getD]

/-- Witness for C1 at the concrete matcher `satAll`. -/
theorem c1_witness :
    resolve satAll "^1.2.0" "1.3.0" = some (true, "1.3.0") ∧
    "1.3.0" = specWantedVersion satAll "^1.2.0" "1.3.0" :=
  ⟨(c1_resolver_wanted satAll).2,
    (c1_resolver_wanted satAll).1 "^1.2.0" "1.3.0" true "1.3.0"
      (c1_resolver_wanted satAll).2⟩

/-- C3: a package appears in the outdated set only when its latest published
version is strictly greater (three-component semantic-version ordering) than
the bare version obtained by stripping range-operator characters from its
declared range; in the equal case (declared `^1.2.0`, latest `1.2.0`) no
record is produced. -/
theorem c3_only_strictly_newer (sat : String → String → Bool)
    (reg : String → Option String) (m : Manifest) :
    (∀ r ∈ checkDependencies sat reg m,
      semverGtOpt r.latest (cleanVersionOf r.current) = some true) ∧
    checkDependencies sat (fun _ => some "1.2.0") m3 = [] := by
  constructor
  · intro r hr
    obtain ⟨p, hp, he⟩ := (mem_checkDependencies_iff sat reg m r).mp hr
    obtain ⟨hn, hc, hreg, hgt, hw, ht⟩ := entryRecord_some sat reg m p r he
    rw [hc]
    exact hgt
  · rfl

/-- Witness for C3: a concrete record in a concrete outdated set. -/
theorem c3_witness :
    rec3 ∈ checkDependencies satAll regTwo m3 ∧
    semverGtOpt rec3.latest (cleanVersionOf rec3.current) = some true := by
  have hmem : rec3 ∈ checkDependencies satAll regTwo m3 := by
    have : checkDependencies satAll regTwo m3 = [rec3] := by decide
    rw [this]
    exact List.mem_singleton.mpr rfl
  exact ⟨hmem, (c3_only_strictly_newer satAll regTwo m3).1 rec3 hmem⟩

/-- C9: every record of `checkDependencies` has `wanted` equal to the fixed
prefix `"^"` concatenated with `latest`, because the candidate list passed to
`maxSatisfying` is the singleton `[latestVersion]` with `latestVersion` as
fallback. -/
theorem c9_wanted_is_caret_latest (sat : String → String → Bool)
    (reg : String → Option String) (m : Manifest) (r : OutdatedRecord)
    (h : r ∈ checkDependencies sat reg m) :
    r.wanted = "^" ++ r.latest := by
  obtain ⟨p, hp, he⟩ := (mem_checkDependencies_iff sat reg m r).mp h
  exact (entryRecord_some sat reg m p r he).2.2.2.2.1

/-- Witness for C9 at a concrete manifest and source. -/
theorem c9_witness :
    rec3 ∈ checkDependencies satAll regTwo m3 ∧
    rec3.wanted = "^" ++ rec3.latest := by
  have hmem : rec3 ∈ checkDependencies satAll regTwo m3 := by
    have : checkDependencies satAll regTwo m3 = [rec3] := by decide
    rw [this]
    exact List.mem_singleton.mpr rfl
  exact ⟨hmem, c9_wanted_is_caret_latest satAll regTwo m3 rec3 hmem⟩

/-- C2 counterexample: a package declared in both the production and the
development bucket is classified `"dev"`, not `"prod"` — the code's first
match is devDependencies, so the claimed precedence
production > development > peer is false. -/
theorem c2_counterexample :
    checkDependencies satAll regTwo mDupProdDev = [recDev] ∧
    recDev.type ≠ "prod" := by
  constructor
  · decide
  · decide

/-- C2 amended: the dependency type recorded on an outdated record follows
the precedence development > peer > production: `"dev"` when the name is in
devDependencies, else `"peer"` when in peerDependencies, else `"prod"`. -/
theorem c2_type_precedence (sat : String → String → Bool)
    (reg : String → Option String) (m : Manifest) (r : OutdatedRecord)
    (h : r ∈ checkDependencies sat reg m) :
    (truthyLookupStr m.devDependencies r.name = true → r.type = "dev") ∧
    (truthyLookupStr m.devDependencies r.name = false →
      truthyLookupStr m.peerDependencies r.name = true → r.type = "peer") ∧
    (truthyLookupStr m.devDependencies r.name = false →
      truthyLookupStr m.peerDependencies r.name = false → r.type = "prod") := by
  obtain ⟨p, hp, he⟩ := (mem_checkDependencies_iff sat reg m r).mp h
  obtain ⟨hn, _, _, _, _, ht⟩ := entryRecord_some sat reg m p r he
  rw [← hn] at ht
  unfold depTypeOf at ht
  refine ⟨fun h1 => ?_, fun h1 h2 => ?_, fun h1 h2 => ?_⟩
  · rw [ht, if_pos h1]
  · rw [ht, if_neg (by simp [h1]), if_pos h2]
  · rw [ht, if_neg (by simp [h1]), if_neg (by simp [h2])]

/-- Witness for the amended C2: the duplicated package is typed `"dev"`. -/
theorem c2_witness :
    truthyLookupStr mDupProdDev.devDependencies recDev.name = true ∧
    recDev.type = "dev" := by
  have hmem : recDev ∈ checkDependencies satAll regTwo mDupProdDev := by
    have : checkDependencies satAll regTwo mDupProdDev = [recDev] := by decide
    rw [this]
    exact List.mem_singleton.mpr rfl
  exact ⟨by decide,
    (c2_type_precedence satAll regTwo mDupProdDev recDev hmem).1 (by decide)⟩

/-- C10: the declared range compared against and reported as `current` is
the one surviving the JavaScript object spread, i.e. from the last-merged
bucket containing the name: peerDependencies first, then devDependencies,
then dependencies. -/
theorem c10_current_from_last_bucket (sat : String → String → Bool)
    (reg : String → Option String) (m : Manifest)
    (h1 : (m.dependencies.map Prod.fst).Nodup)
    (h2 : (m.devDependencies.map Prod.fst).Nodup)
    (h3 : (m.peerDependencies.map Prod.fst).Nodup)
    (r : OutdatedRecord) (h : r ∈ checkDependencies sat reg m) :
    optOr (lookupStr m.peerDependencies r.name)
      (optOr (lookupStr m.devDependencies r.name)
        (lookupStr m.dependencies r.name)) = some r.current := by
  obtain ⟨p, hp, he⟩ := (mem_checkDependencies_iff sat reg m r).mp h
  obtain ⟨hn, hc, _, _, _, _⟩ := entryRecord_some sat reg m p r he
  have hnodupInner :=
    nodupKeys_spreadMerge m.devDependencies m.dependencies h1
  have hnodupAll : ((allDepsOf m).map Prod.fst).Nodup :=
    nodupKeys_spreadMerge m.peerDependencies _ hnodupInner
  have hpmem : (p.1, p.2) ∈ allDepsOf m := by
    obtain ⟨pk, pv⟩ := p
    exact hp
  have hlook : lookupStr (allDepsOf m) p.1 = some p.2 :=
    lookupStr_of_mem_nodup _ p.1 p.2 hnodupAll hpmem
  have hsplit : lookupStr (allDepsOf m) p.1 =
      optOr (lookupStr m.peerDependencies p.1)
        (optOr (lookupStr m.devDependencies p.1)
          (lookupStr m.dependencies p.1)) := by
    unfold allDepsOf
    rw [lookupStr_spreadMerge m.peerDependencies h3,
      lookupStr_spreadMerge m.devDependencies h2]
  rw [hn, hc, ← hsplit, hlook]

/-- Witness for C10: the peer bucket's range wins for a duplicated name. -/
theorem c10_witness :
    recPeer ∈ checkDependencies satAll regTwo mPeer ∧
    optOr (lookupStr mPeer.peerDependencies recPeer.name)
      (optOr (lookupStr mPeer.devDependencies recPeer.name)
        (lookupStr mPeer.dependencies recPeer.name)) = some recPeer.current := by
  have hmem : recPeer ∈ checkDependencies satAll regTwo mPeer := by
    have : checkDependencies satAll regTwo mPeer = [recPeer] := by decide
    rw [this]
    exact List.mem_singleton.mpr rfl
  exact ⟨hmem,
    c10_current_from_last_bucket satAll regTwo mPeer (by decide) (by decide)
      (by decide) recPeer hmem⟩

theorem entryRecord_congr (sat : String → String → Bool)
    (reg reg2 : String → Option String) (m : Manifest) (p : String × String)
    (h : reg p.1 = reg2 p.1) :
    entryRecord sat reg m p = entryRecord sat reg2 m p := by
  unfold entryRecord
  rw [h]

theorem c5_filter_go (sat : String → String → Bool) (m : Manifest)
    (reg reg2 : String → Option String) (n : String)
    (hagree : reg2 n = reg n) :
    ∀ l : List (String × String),
      (l.filterMap (entryRecord sat reg m)).filter (fun r => r.name == n) =
        (l.filterMap (entryRecord sat reg2 m)).filter
          (fun r => r.name == n) := by
  intro l
  induction l with
  | nil => rfl
  | cons p rest ih =>
    simp only [List.filterMap_cons]
    by_cases hp : p.1 = n
    · have heq : entryRecord sat reg m p = entryRecord sat reg2 m p :=
        entryRecord_congr sat reg reg2 m p (by rw [hp, hagree])
      rw [← heq]
      cases he : entryRecord sat reg m p with
      | none => exact ih
      | some r =>
        simp only [List.filter_cons]
        rw [ih]
    · cases he : entryRecord sat reg m p with
      | none =>
        cases he2 : entryRecord sat reg2 m p with
        | none => exact ih
        | some r2 =>
          have hname2 : (r2.name == n) = false := by
            have := (entryRecord_some sat reg2 m p r2 he2).1
            simp [this, hp]
          simp only [List.filter_cons, hname2]
          exact ih
      | some r =>
        have hname : (r.name == n) = false := by
          have := (entryRecord_some sat reg m p r he).1
          simp [this, hp]
        cases he2 : entryRecord sat reg2 m p with
        | none =>
          simp only [List.filter_cons, hname]
          exact ih
        | some r2 =>
          have hname2 : (r2.name == n) = false := by
            have := (entryRecord_some sat reg2 m p r2 he2).1
            simp [this, hp]
          simp only [List.filter_cons, hname, hname2]
          exact ih

/-- C5: failures of the latest-version source are isolated per package: the
records produced for a package `n` depend only on the source's answer for
`n` (so a failure for another package cannot remove them), and when the
source fails for `n` no record for `n` appears — the builder never aborts. -/
theorem c5_failure_isolation (sat : String → String → Bool) (m : Manifest)
    (reg reg2 : String → Option String) (n : String)
    (hagree : reg2 n = reg n) :
    ((checkDependencies sat reg m).filter (fun r => r.name == n) =
      (checkDependencies sat reg2 m).filter (fun r => r.name == n)) ∧
    (reg n = none →
      (checkDependencies sat reg m).all (fun r => !(r.name == n)) = true) := by
  constructor
  · rw [checkDependencies, checkDependencies, checkDepsGo_eq_filterMap,
      checkDepsGo_eq_filterMap]
    exact c5_filter_go sat m reg reg2 n hagree (allDepsOf m)
  · intro hnone
    rw [List.all_eq_true]
    intro r hr
    obtain ⟨p, hp, he⟩ := (mem_checkDependencies_iff sat reg m r).mp hr
    obtain ⟨hn, _, hreg, _, _, _⟩ := entryRecord_some sat reg m p r he
    simp only [Bool.not_eq_true', beq_eq_false_iff_ne, ne_eq]
    intro hcontra
    rw [hn] at hcontra
    rw [hcontra, hnone] at hreg
    cases hreg

/-- Witness for C5: `b`'s record is unaffected by what the source does for
`a`, and a failure for `a` leaves no `a` record. -/
theorem c5_witness :
    ((checkDependencies satAll regW m5).filter (fun r => r.name == "b") =
      (checkDependencies satAll regW2 m5).filter (fun r => r.name == "b")) ∧
    (checkDependencies satAll regW m5).all (fun r => !(r.name == "a")) =
      true :=
  ⟨(c5_failure_isolation satAll m5 regW regW2 "b" rfl).1,
    (c5_failure_isolation satAll m5 regW regW "a" rfl).2 rfl⟩

/-! ## Security fixtures -/

/-- An environment where the audit probe fails and no manifest exists. -/
def env4 : SecEnv :=
  ⟨.error ⟨"Command failed: npm audit --json", ""⟩, none,
    fun _ => none, fun _ _ => none⟩

/-- An audit payload whose single finding carries no severity field. -/
def payloadC6 : JVal :=
  .obj [("vulnerabilities",
    .obj [("lodash", .obj [("via", .arr [.obj [("title", .str "t")]])])])]

/-- An environment whose audit command succeeds with `payloadC6`. -/
def envC6 : SecEnv :=
  ⟨.ok "A", none, fun s => if s = "A" then some payloadC6 else none,
    fun _ _ => none⟩

/-- The record the audit path produces from `payloadC6`: its severity is
`undefined`, not `"moderate"`. -/
def recC6 : VulnRecord :=
  ⟨"lodash", none, none, .str "t", .str "", .str "*",
    .str "No fix available", .str ""⟩

/-- A registry-fallback finding without a severity field. -/
def vulnNoSev : JVal := .obj [("title", .str "t")]

/-- The record the registry fallback produces from `vulnNoSev`. -/
def recRegDefault : VulnRecord :=
  ⟨"a", some "1.0.0", some (.str "moderate"), .str "t",
    .str "https://www.npmjs.com/advisories/undefined", .str "*",
    .str "No fix available", .str ""⟩

/-- The audit finding object inside `payloadC6`. -/
def dataC6 : JVal := .obj [("via", .arr [.obj [("title", .str "t")]])]

/-- An audit payload carrying one finding, used for the attached-output
scenario. -/
def payloadC7 : JVal :=
  .obj [("vulnerabilities",
    .obj [("minimist", .obj [("via", .arr [.obj [("title", .str "u")]])])])]

/-- The record `payloadC7` yields when parsed by the audit extractor. -/
def recC7 : VulnRecord :=
  ⟨"minimist", none, none, .str "u", .str "", .str "*",
    .str "No fix available", .str ""⟩

/-- An environment whose audit command exits with failure while its attached
stdout `"S"` parses to `payloadC7`; no manifest for the fallback. -/
def envC7 : SecEnv :=
  ⟨.error ⟨"Command failed: npm audit --json", "S"⟩, none,
    fun s => if s = "S" then some payloadC7 else none, fun _ _ => none⟩

/-- An environment whose registry fetch always fails. -/
def envF : SecEnv :=
  ⟨.error ⟨"x", ""⟩, none, fun _ => none, fun _ _ => none⟩

/-- An environment whose registry fetch succeeds with a payload that has no
vulnerabilities map. -/
def envS : SecEnv :=
  ⟨.error ⟨"x", ""⟩, none, fun _ => none, fun _ _ => some (.obj [])⟩

/-! ## Helper lemmas for the security claims -/

theorem getPackageVulnerabilities_fetchNone (env : SecEnv) (n v : String)
    (hf : env.fetchReg n v = none) :
    getPackageVulnerabilities env cacheEmpty n v = ([], cacheEmpty, 1) := by
  unfold getPackageVulnerabilities
  simp [cacheEmpty, lookupStr, hf]

theorem registryLoop_fetchNone (env : SecEnv)
    (hf : ∀ a b, env.fetchReg a b = none) :
    ∀ l, registryLoop env l cacheEmpty = ([], cacheEmpty) := by
  intro l
  induction l with
  | nil => rfl
  | cons p rest ih =>
    obtain ⟨name, v⟩ := p
    cases v with
    | str sv =>
      simp only [registryLoop]
      by_cases hb : (beginsWith sv "file:" || beginsWith sv "git+") = true
      · rw [if_pos hb]; exact ih
      · rw [if_neg hb,
          getPackageVulnerabilities_fetchNone env name sv (hf name sv)]
        simp [ih]
    | null => exact ih
    | bool b => exact ih
    | num n2 => exact ih
    | arr elems => exact ih
    | obj fields => exact ih

theorem getPackageVulnerabilities_congr (e1 e2 : SecEnv)
    (hf : e1.fetchReg = e2.fetchReg) (st : Cache) (n v : String) :
    getPackageVulnerabilities e1 st n v =
      getPackageVulnerabilities e2 st n v := by
  unfold getPackageVulnerabilities
  rw [hf]

theorem registryLoop_congr (e1 e2 : SecEnv)
    (hf : e1.fetchReg = e2.fetchReg) :
    ∀ (l : List (String × JVal)) (st : Cache),
      registryLoop e1 l st = registryLoop e2 l st := by
  intro l
  induction l with
  | nil => intro st; rfl
  | cons p rest ih =>
    intro st
    obtain ⟨name, v⟩ := p
    cases v with
    | str sv =>
      simp only [registryLoop]
      rw [getPackageVulnerabilities_congr e1 e2 hf st name sv, ih, ih]
    | null => exact ih st
    | bool b => exact ih st
    | num n2 => exact ih st
    | arr elems => exact ih st
    | obj fields => exact ih st

theorem checkWithNpmRegistry_congr (e1 e2 : SecEnv)
    (hm : e1.manifest = e2.manifest) (hp : e1.parse = e2.parse)
    (hf : e1.fetchReg = e2.fetchReg) (st : Cache) :
    checkWithNpmRegistry e1 st = checkWithNpmRegistry e2 st := by
  unfold checkWithNpmRegistry
  rw [hm, hp]
  split
  · rfl
  · split
    · rfl
    · split
      · rw [registryLoop_congr e1 e2 hf]
      · rfl

theorem checkWithNpmRegistry_fetchNone (env : SecEnv)
    (hf : ∀ a b, env.fetchReg a b = none) (res : List VulnRecord × Cache)
    (h : checkWithNpmRegistry env cacheEmpty = Except.ok res) :
    res = ([], cacheEmpty) := by
  unfold checkWithNpmRegistry at h
  split at h
  · exact Except.noConfusion h
  · split at h
    · exact Except.noConfusion h
    · split at h
      · rw [registryLoop_fetchNone env hf] at h
        cases h
        rfl
      · exact Except.noConfusion h

/-! ## Claims about the Vulnerability Aggregator -/

/-- C4: collectVulnerabilities never propagates an exception: when the
audit probe fails and the manifest is missing it returns the empty list;
when the audit payload is unparseable it returns the empty list; when the
audit probe fails and every registry fetch fails it returns the empty
list. -/
theorem c4_never_raises (env : SecEnv) (st : Cache) :
    (hasNpmAudit env = false → env.manifest = none →
      checkVulnerabilities env st = ([], st)) ∧
    (∀ s, env.audit = Except.ok s → env.parse s = none →
      checkVulnerabilities env st = ([], st)) ∧
    (hasNpmAudit env = false → (∀ a b, env.fetchReg a b = none) →
      (checkVulnerabilities env cacheEmpty).1 = []) := by
  refine ⟨?_, ?_, ?_⟩
  · intro ha hm
    simp [checkVulnerabilities, ha, checkWithNpmRegistry, hm]
  · intro s ha hp
    have haudit : hasNpmAudit env = true := by simp [hasNpmAudit, ha]
    simp [checkVulnerabilities, haudit, checkWithNpmAudit, ha, hp]
  · intro ha hf
    simp only [checkVulnerabilities, ha, Bool.false_eq_true, if_false]
    cases hreg : checkWithNpmRegistry env cacheEmpty with
    | error e => rfl
    | ok res =>
      rw [checkWithNpmRegistry_fetchNone env hf res hreg]

/-- Witness for C4: both-sources-unusable environment yields the empty
list. -/
theorem c4_witness :
    checkVulnerabilities env4 cacheEmpty = ([], cacheEmpty) ∧
    (checkVulnerabilities env4 cacheEmpty).1 = [] :=
  ⟨(c4_never_raises env4 cacheEmpty).1 rfl rfl,
    (c4_never_raises env4 cacheEmpty).2.2 rfl (fun _ _ => rfl)⟩

/-- C6 counterexample: an audit finding without a severity yields a record
whose severity is `undefined` (`none`), not `"moderate"` — the audit path
copies `data.severity` verbatim with no default. -/
theorem c6_counterexample :
    (checkVulnerabilities envC6 cacheEmpty).1 = [recC6] ∧
    recC6.severity ≠ some (JVal.str "moderate") :=
  ⟨rfl, fun hcon => Option.noConfusion hcon⟩

theorem jget_ok_of_ne_null (v : JVal) (k : String)
    (hv : v ≠ JVal.null) : ∃ o, jget v k = Except.ok o := by
  cases v with
  | null => exact absurd rfl hv
  | bool b => exact ⟨none, rfl⟩
  | num n => exact ⟨none, rfl⟩
  | str s2 => exact ⟨none, rfl⟩
  | arr elems => exact ⟨none, rfl⟩
  | obj fields => exact ⟨lookupStr fields k, rfl⟩

/-- C6 amended: a finding without a severity gets `"moderate"` in the
registry fallback path, while the audit path copies the source severity
verbatim (leaving it `undefined` when absent). -/
theorem c6_severity_default :
    (∀ name ver vuln r, regVulnRecord name ver vuln = Except.ok r →
      jget vuln "severity" = Except.ok none →
      r.severity = some (JVal.str "moderate")) ∧
    (∀ name data r sev, auditEntry name data = Except.ok (some r) →
      jget data "severity" = Except.ok sev →
      r.severity = sev) := by
  constructor
  · intro name ver vuln r h hsev
    cases vuln with
    | null => simp [jget] at hsev
    | bool b =>
      simp only [regVulnRecord, jget, Except.ok.injEq] at h
      rw [← h]
      rfl
    | num n =>
      simp only [regVulnRecord, jget, Except.ok.injEq] at h
      rw [← h]
      rfl
    | str s2 =>
      simp only [regVulnRecord, jget, Except.ok.injEq] at h
      rw [← h]
      rfl
    | arr elems =>
      simp only [regVulnRecord, jget, Except.ok.injEq] at h
      rw [← h]
      rfl
    | obj fields =>
      simp only [jget, Except.ok.injEq] at hsev
      simp only [regVulnRecord, jget, hsev, Except.ok.injEq] at h
      rw [← h]
      rfl
  · intro name data r sev h hsev
    cases data with
    | null => simp [jget] at hsev
    | bool b => simp [auditEntry, jget, truthyOpt] at h
    | num n => simp [auditEntry, jget, truthyOpt] at h
    | str s2 => simp [auditEntry, jget, truthyOpt] at h
    | arr elems => simp [auditEntry, jget, truthyOpt] at h
    | obj fields =>
      simp only [jget, Except.ok.injEq] at hsev
      unfold auditEntry at h
      have hj : jget (JVal.obj fields) "via" =
          Except.ok (lookupStr fields "via") := rfl
      rw [hj] at h
      dsimp only at h
      cases hvia : lookupStr fields "via" with
      | none => rw [hvia] at h; simp [truthyOpt] at h
      | some viaVal =>
        rw [hvia] at h
        by_cases hv : truthy viaVal = true
        · rw [if_pos (show truthyOpt (some viaVal) = true from hv)] at h
          dsimp only at h
          cases hvuln : (match viaVal with
              | JVal.arr elems => elems.head?
              | v => some v) with
          | none => rw [hvuln] at h; simp [truthyOpt] at h
          | some vulnVal =>
            rw [hvuln] at h
            by_cases hvt : truthy vulnVal = true
            · rw [if_pos (show truthyOpt (some vulnVal) = true from hvt)] at h
              dsimp only at h
              have hne : vulnVal ≠ JVal.null := by
                intro hcon
                rw [hcon] at hvt
                simp [truthy] at hvt
              have hjs : jget (JVal.obj fields) "severity" =
                  Except.ok (lookupStr fields "severity") := rfl
              have hjr : jget (JVal.obj fields) "range" =
                  Except.ok (lookupStr fields "range") := rfl
              obtain ⟨t1, ht1⟩ := jget_ok_of_ne_null vulnVal "title" hne
              obtain ⟨t2, ht2⟩ := jget_ok_of_ne_null vulnVal "url" hne
              obtain ⟨t3, ht3⟩ := jget_ok_of_ne_null vulnVal "fixedIn" hne
              obtain ⟨t4, ht4⟩ := jget_ok_of_ne_null vulnVal "advisory" hne
              rw [hjs, hjr, ht1, ht2, ht3, ht4] at h
              dsimp only at h
              simp only [Except.ok.injEq, Option.some.injEq] at h
              rw [← h]
              exact hsev
            · rw [if_neg (show ¬ truthyOpt (some vulnVal) = true from hvt)] at h
              simp at h
        · rw [if_neg (show ¬ truthyOpt (some viaVal) = true from hv)] at h
          simp at h

/-- Witness for the amended C6: a concrete defaulted fallback record and a
concrete verbatim-copied (undefined) audit severity. -/
theorem c6_witness :
    (regVulnRecord "a" "1.0.0" vulnNoSev = Except.ok recRegDefault ∧
      recRegDefault.severity = some (JVal.str "moderate")) ∧
    (auditEntry "lodash" dataC6 = Except.ok (some recC6) ∧
      recC6.severity = none) :=
  ⟨⟨rfl, c6_severity_default.1 "a" "1.0.0" vulnNoSev recRegDefault rfl rfl⟩,
    ⟨rfl, c6_severity_default.2 "lodash" dataC6 recC6 none rfl rfl⟩⟩

/-- C7 counterexample: the audit command fails with stdout that parses to a
payload containing a finding, yet the aggregator returns no records — the
attached output is never parsed. -/
theorem c7_counterexample :
    envC7.audit = Except.error ⟨"Command failed: npm audit --json", "S"⟩ ∧
    envC7.parse "S" = some payloadC7 ∧
    auditFromJson payloadC7 = Except.ok [recC7] ∧
    checkVulnerabilities envC7 cacheEmpty = ([], cacheEmpty) :=
  ⟨rfl, rfl, rfl, rfl⟩

/-- C7 amended: a failing audit exit makes `hasNpmAudit` report false, so
collection goes to the registry fallback; the result does not depend on the
failure's attached output. -/
theorem c7_audit_failure_never_parsed (env : SecEnv) (st : Cache)
    (e : AuditErr) (h : env.audit = Except.error e) :
    hasNpmAudit env = false ∧
    checkVulnerabilities env st =
      (match checkWithNpmRegistry env st with
        | Except.ok p => p
        | Except.error _ => ([], st)) ∧
    (∀ e2 : AuditErr,
      checkVulnerabilities { env with audit := Except.error e2 } st =
        checkVulnerabilities env st) := by
  have hfalse : hasNpmAudit env = false := by simp [hasNpmAudit, h]
  refine ⟨hfalse, ?_, ?_⟩
  · simp [checkVulnerabilities, hfalse]
  · intro e2
    have h2 : hasNpmAudit { env with audit := Except.error e2 } = false := by
      simp [hasNpmAudit]
    simp only [checkVulnerabilities, h2, hfalse, Bool.false_eq_true, if_false]
    rw [checkWithNpmRegistry_congr { env with audit := Except.error e2 } env
      rfl rfl rfl st]

/-- Witness for the amended C7 at a concrete failing-audit environment. -/
theorem c7_witness :
    hasNpmAudit envC7 = false ∧
    checkVulnerabilities envC7 cacheEmpty =
      (match checkWithNpmRegistry envC7 cacheEmpty with
        | Except.ok p => p
        | Except.error _ => ([], cacheEmpty)) :=
  ⟨(c7_audit_failure_never_parsed envC7 cacheEmpty
      ⟨"Command failed: npm audit --json", "S"⟩ rfl).1,
    (c7_audit_failure_never_parsed envC7 cacheEmpty
      ⟨"Command failed: npm audit --json", "S"⟩ rfl).2.1⟩

/-- C8 counterexample: when the registry fetch fails, the result is not
cached, so two identical fallback requests hit the external source twice. -/
theorem c8_counterexample :
    (getPackageVulnerabilities envF cacheEmpty "a" "1.0.0").2.2 = 1 ∧
    (getPackageVulnerabilities envF
      (getPackageVulnerabilities envF cacheEmpty "a" "1.0.0").2.1
      "a" "1.0.0").2.2 = 1 :=
  ⟨rfl, rfl⟩

/-- C8 amended: when the first fallback request for a `name@version` key
completes successfully, its result is cached and a second identical request
is answered from the cache with zero registry hits. -/
theorem c8_cache_after_success (env : SecEnv) (st : Cache) (n v : String)
    (d : JVal) (recs : List VulnRecord)
    (hf : env.fetchReg n v = some d)
    (he : regExtract n v d = Except.ok recs)
    (hc : lookupStr st (cacheKey n v) = none) :
    getPackageVulnerabilities env st n v =
      (recs, objInsert st (cacheKey n v) recs, 1) ∧
    getPackageVulnerabilities env (objInsert st (cacheKey n v) recs) n v =
      (recs, objInsert st (cacheKey n v) recs, 0) := by
  constructor
  · unfold getPackageVulnerabilities
    dsimp only
    rw [hc, hf]
    dsimp only
    rw [he]
  · unfold getPackageVulnerabilities
    dsimp only
    rw [lookupStr_objInsert st (cacheKey n v) recs (cacheKey n v), if_pos rfl]

/-- Witness for the amended C8 at a concrete succeeding environment. -/
theorem c8_witness :
    getPackageVulnerabilities envS cacheEmpty "a" "1.0.0" =
      ([], objInsert cacheEmpty (cacheKey "a" "1.0.0") [], 1) ∧
    getPackageVulnerabilities envS
        (objInsert cacheEmpty (cacheKey "a" "1.0.0") []) "a" "1.0.0" =
      ([], objInsert cacheEmpty (cacheKey "a" "1.0.0") [], 0) :=
  c8_cache_after_success envS cacheEmpty "a" "1.0.0" (JVal.obj []) [] rfl rfl
    rfl

end DepSentry
